import Mathlib

/-!
Verification of the book-catalog manager (`src/Library.py`) against its
specification.  The Python program is shallowly embedded: the persisted store
is a list of book records, every catalog operation is a pure function from the
loaded store to the resulting store together with its observable outcome, and
the persistence layer (`json.load` / `json.dump`) is modelled byte-exactly on
lists of characters.
-/

/-! ## Data model

A record of `books.json`, as created by `Book.__init__`: the attribute
insertion order is `id`, `title`, `author`, `year`, `status`. -/

structure BookRec where
  id : Int
  title : String
  author : String
  year : Int
  status : String
deriving DecidableEq, Repr

/-- Status literal used as the default argument of `Book.__init__`
(`status: str = "В наличии"`, capital first letter). -/
def defaultStatus : String := "В наличии"

/-- The two status literals accepted by `update_status`
(`new_status in ["в наличии", "выдана"]`, lower-case first letters). -/
def validStatuses : List String := ["в наличии", "выдана"]

/-- Ids of the records of a store, in store order. -/
def ids (books : List BookRec) : List Int := books.map (·.id)

/-! ## Record store: id assignment -/

/-- `Book.get_next_id`: `1` when the store file is absent or the loaded list
is empty (both give an empty collection), otherwise
`max(book['id'] for book in books) + 1`. -/
def get_next_id (books : List BookRec) : Int :=
  match books with
  | [] => 1
  | b :: rest => rest.foldl (fun m x => max m x.id) b.id + 1

/-- The `Book` constructed by `add_book`: fresh id from `get_next_id`, the
given fields, and the default status. -/
def mkBook (title author : String) (year : Int) (books : List BookRec) : BookRec :=
  { id := get_next_id books, title := title, author := author, year := year,
    status := defaultStatus }

/-- `add_book`: load, construct a `Book` (whose id is computed from the same
persisted collection), append its `__dict__`, save. -/
def add_book (title author : String) (year : Int) (books : List BookRec) : List BookRec :=
  books ++ [mkBook title author year books]

/-- `delete_book`: keep the records whose id differs from `book_id`; the
boolean is `true` exactly when a record was removed and `save_books` was
called, `false` when the "not found" message is printed and no write occurs. -/
def delete_book (book_id : Int) (books : List BookRec) : List BookRec × Bool :=
  let update_books := books.filter (fun b => b.id != book_id)
  if update_books.length = books.length then (books, false) else (update_books, true)

/-! ## Decimal rendering of integers (Python `str(int)`)

Defined with fuel so that every proof obligation reduces in the kernel; the
fuel `n + 1` always suffices since `n / 10 < n` for `10 ≤ n`. -/

def digitChar (d : Nat) : Char := Char.ofNat (48 + d)

def natCharsAux : Nat → Nat → List Char
  | 0, _ => []
  | fuel + 1, n =>
    if n < 10 then [digitChar n]
    else natCharsAux fuel (n / 10) ++ [digitChar (n % 10)]

/-- Decimal digits of a natural number, most significant first. -/
def natChars (n : Nat) : List Char := natCharsAux (n + 1) n

/-- Python `str` of an `int`: decimal digits, `-`-prefixed when negative. -/
def intChars (n : Int) : List Char :=
  if n < 0 then '-' :: natChars n.natAbs else natChars n.toNat

/-- Python `str(book['year'])` as a Lean `String`. -/
def intStr (n : Int) : String := ⟨intChars n⟩

/-! ## Search -/

/-- Case folding of one character as `str.lower()` performs it on the
program's data: ASCII letters and the Cyrillic letters appearing in the
program's literals (`А`–`Я` and `Ё`).  (Python's `str.lower` implements the
full Unicode simple mapping; the model restricts it to these ranges.) -/
def charLower (c : Char) : Char :=
  if 'A' ≤ c ∧ c ≤ 'Z' then Char.ofNat (c.toNat + 32)
  else if 'А' ≤ c ∧ c ≤ 'Я' then Char.ofNat (c.toNat + 32)
  else if c = 'Ё' then 'ё'
  else c

/-- Python `s.lower()`. -/
def pyLower (s : String) : String := ⟨s.data.map charLower⟩

/-- Whether `small` is a prefix of `l` (helper for the substring test). -/
def isPref : List Char → List Char → Bool
  | [], _ => true
  | _ :: _, [] => false
  | a :: as, b :: bs => a == b && isPref as bs

/-- Python's `needle in hay` on strings: `needle` occurs as a contiguous
substring of `hay`. -/
def hasSub (needle : List Char) : List Char → Bool
  | [] => isPref needle []
  | hay@(_ :: rest) => isPref needle hay || hasSub needle rest

/-- `search_book`: keep the records where the lowered query occurs in the
lowered title, or in the lowered author, or the query equals `str(year)`.
(The function prints the kept records; the model returns the list
`results` it computes, in store order.) -/
def search_book (query : String) (books : List BookRec) : List BookRec :=
  books.filter (fun book =>
    hasSub (pyLower query).data (pyLower book.title).data ||
    hasSub (pyLower query).data (pyLower book.author).data ||
    query == intStr book.year)

/-! ## Update-status -/

/-- Observable outcome of `update_status`: the success print (after a save),
the status-validation error print, or the "not found" print. -/
inductive UpdateOutcome where
  | updated
  | invalidStatus
  | notFound
deriving DecidableEq, Repr

/-- `update_status`: scan for the first record with the given id; if its
status argument is one of the two accepted literals, mutate that record's
`status` field and save; otherwise print the validation error and return
without saving; if no record matches, print "not found".  The returned list
is the in-memory collection when the function returns (persisted only in the
`updated` case). -/
def update_status (book_id : Int) (new_status : String) :
    List BookRec → List BookRec × UpdateOutcome
  | [] => ([], .notFound)
  | b :: rest =>
    if b.id = book_id then
      if validStatuses.contains new_status then
        ({ b with status := new_status } :: rest, .updated)
      else
        (b :: rest, .invalidStatus)
    else
      let r := update_status book_id new_status rest
      (b :: r.1, r.2)

/-! ## Python `int(...)` on user input -/

def digitList : List Char := ['0', '1', '2', '3', '4', '5', '6', '7', '8', '9']

def isDigit (c : Char) : Bool := digitList.contains c

def digitVal (c : Char) : Nat := c.toNat - 48

def isWsChar (c : Char) : Bool := c == ' ' || c == '\t' || c == '\n' || c == '\r'

/-- Strip leading and trailing whitespace, as `int(str)` does before parsing. -/
def trimWs (l : List Char) : List Char :=
  ((l.dropWhile isWsChar).reverse.dropWhile isWsChar).reverse

/-- Numeric value of a digit string (most significant digit first). -/
def digitsVal (l : List Char) : Nat := l.foldl (fun acc c => acc * 10 + digitVal c) 0

/-- Python `int(s)` on a string: optional surrounding whitespace, an optional
sign, then one or more decimal digits; anything else raises `ValueError`,
modelled as `none`.  (Underscore digit separators are not modelled.) -/
def pyInt (s : String) : Option Int :=
  match trimWs s.data with
  | '-' :: ds => if ds ≠ [] ∧ ds.all isDigit then some (-(digitsVal ds : Int)) else none
  | '+' :: ds => if ds ≠ [] ∧ ds.all isDigit then some (digitsVal ds) else none
  | ds => if ds ≠ [] ∧ ds.all isDigit then some (digitsVal ds) else none

/-! ## Command dispatcher (`main`) -/

/-- Result of one iteration of the `while True` loop in `main`: the loop
continues (`ok`), an uncaught exception terminates the session (`crashed`),
or action 6 breaks out of the loop (`exited`). -/
inductive StepOutcome where
  | ok
  | crashed
  | exited
deriving DecidableEq, Repr

/-- One iteration of the interactive loop of `main`, given the user's menu
choice, the inputs the chosen branch would read, and the loaded store.  In
branch `'1'` the call `int(input(...))` is not wrapped in `try`/`except`, so
a year that does not parse raises an uncaught `ValueError` (`crashed`); in
branches `'2'` and `'5'` the `int` call is guarded by `except ValueError`,
which prints a message and continues. -/
def main_step (choice title author yearInput idInput statusInput : String)
    (books : List BookRec) : StepOutcome × List BookRec :=
  if choice = "1" then
    match pyInt yearInput with
    | some y => (.ok, add_book title author y books)
    | none => (.crashed, books)
  else if choice = "2" then
    match pyInt idInput with
    | some i => (.ok, (delete_book i books).1)
    | none => (.ok, books)
  else if choice = "3" then (.ok, books)
  else if choice = "4" then (.ok, books)
  else if choice = "5" then
    match pyInt idInput with
    | some i => (.ok, (update_status i statusInput books).1)
    | none => (.ok, books)
  else if choice = "6" then (.exited, books)
  else (.ok, books)

/-! ## Specification-side search predicate

Stated from the words of the spec (§4.4), independently of the code's
substring routine, for comparison with `search_book`. -/

/-- Specification-side matcher: the query (case-insensitively) is a substring
of the title or of the author, or the query equals the decimal string form of
the year. -/
def spec_search_matches (query : String) (b : BookRec) : Prop :=
  (pyLower query).data <:+: (pyLower b.title).data ∨
  (pyLower query).data <:+: (pyLower b.author).data ∨
  query = intStr b.year

/-! ## JSON values

Model of the data handled by Python's `json` module in `load_books` /
`save_books`.  Numbers are modelled as integers only (the store holds `id`
and `year` integers; float syntax is rejected by the modelled parser).
Objects are insertion-ordered key/value lists, as Python dicts are. -/

inductive J where
  | jnull
  | jbool (b : Bool)
  | jnum (n : Int)
  | jstr (s : List Char)
  | jarr (elems : List J)
  | jobj (fields : List (List Char × J))
deriving Repr

/-- Python dict insertion `d[k] = v`: replace in place if the key is present,
otherwise append. -/
def objInsert : List (List Char × J) → List Char → J → List (List Char × J)
  | [], k, v => [(k, v)]
  | (k0, v0) :: rest, k, v =>
    if k0 = k then (k0, v) :: rest else (k0, v0) :: objInsert rest k v

/-- Build a dict from parsed key/value pairs in order (later duplicate keys
override earlier ones, keeping the first position). -/
def objOfPairs (pairs : List (List Char × J)) : List (List Char × J) :=
  pairs.foldl (fun acc p => objInsert acc p.1 p.2) []

/-- Python `d[k]` on a dict: `none` models a `KeyError`. -/
def objLookup : List (List Char × J) → List Char → Option J
  | [], _ => none
  | (k0, v) :: rest, k => if k0 = k then some v else objLookup rest k

/-! ## JSON parsing (`json.load`) -/

/-- JSON whitespace skipping (space, tab, newline, carriage return). -/
def skipWs : List Char → List Char
  | [] => []
  | c :: rest => if isWsChar c then skipWs rest else c :: rest

def hexVal (c : Char) : Option Nat :=
  if isDigit c then some (digitVal c)
  else if 'a' ≤ c ∧ c ≤ 'f' then some (c.toNat - 87)
  else if 'A' ≤ c ∧ c ≤ 'F' then some (c.toNat - 55)
  else none

/-- Single-character string escapes accepted after a backslash. -/
def escChar (c : Char) : Option Char :=
  if c = '"' then some '"'
  else if c = '\\' then some '\\'
  else if c = '/' then some '/'
  else if c = 'b' then some (Char.ofNat 8)
  else if c = 'f' then some (Char.ofNat 12)
  else if c = 'n' then some '\n'
  else if c = 'r' then some '\r'
  else if c = 't' then some '\t'
  else none

/-- Scan a string body after the opening quote, as the strict
`py_scanstring` does: unescaped control characters are an error; backslash
escapes and `\uXXXX` (non-surrogate code points; surrogate pairs are not
modelled) are decoded; the closing quote ends the string. -/
def scanStr : List Char → Option (List Char × List Char)
  | [] => none
  | c :: rest =>
    if c = '"' then some ([], rest)
    else if c = '\\' then
      match rest with
      | 'u' :: h1 :: h2 :: h3 :: h4 :: rest2 =>
        match hexVal h1, hexVal h2, hexVal h3, hexVal h4 with
        | some a, some b, some c2, some d =>
          let n := ((a * 16 + b) * 16 + c2) * 16 + d
          if n < 55296 ∨ 57343 < n then
            (scanStr rest2).map (fun p => (Char.ofNat n :: p.1, p.2))
          else none
        | _, _, _, _ => none
      | e :: rest2 =>
        match escChar e with
        | some ec => (scanStr rest2).map (fun p => (ec :: p.1, p.2))
        | none => none
      | [] => none
    else if c.toNat < 32 then none
    else (scanStr rest).map (fun p => (c :: p.1, p.2))

def digitStart : List Char → Bool
  | c :: _ => isDigit c
  | [] => false

/-- Whether the remaining input begins a float continuation (fraction or
exponent); such numbers are outside the modelled integer-only store. -/
def floatStart : List Char → Bool
  | c :: _ => c == '.' || c == 'e' || c == 'E'
  | [] => false

/-- Accumulating decimal scanner: consume leading digits. -/
def parseNatAcc (acc : Nat) : List Char → Nat × List Char
  | [] => (acc, [])
  | c :: rest =>
    if isDigit c then parseNatAcc (acc * 10 + digitVal c) rest else (acc, c :: rest)

/-- Scan an unsigned JSON integer: at least one digit, no leading zeros
(except `0` itself), not followed by a fraction or exponent. -/
def parseNumNN : List Char → Option (Nat × List Char)
  | [] => none
  | c :: rest =>
    if isDigit c then
      if c = '0' ∧ digitStart rest then none
      else
        if floatStart (parseNatAcc 0 (c :: rest)).2 then none
        else some (parseNatAcc 0 (c :: rest))
    else none

/-- Scan a JSON integer with its optional leading minus sign. -/
def parseNum : List Char → Option (Int × List Char)
  | [] => none
  | c :: rest =>
    if c = '-' then (parseNumNN rest).map (fun p => (-(p.1 : Int), p.2))
    else (parseNumNN (c :: rest)).map (fun p => ((p.1 : Int), p.2))

mutual

/-- Recursive-descent JSON value parser (fuel-indexed; every recursive call
spends one unit, and the fuel supplied by `pyLoads` always suffices). -/
def parseVal : Nat → List Char → Option (J × List Char)
  | 0, _ => none
  | fuel + 1, s =>
    match skipWs s with
    | [] => none
    | c :: rest =>
      if c = '"' then (scanStr rest).map (fun p => (J.jstr p.1, p.2))
      else if c = '[' then
        match skipWs rest with
        | ']' :: rest2 => some (J.jarr [], rest2)
        | rest2 => (parseItems fuel rest2).map (fun p => (J.jarr p.1, p.2))
      else if c = '{' then
        match skipWs rest with
        | '}' :: rest2 => some (J.jobj [], rest2)
        | rest2 => (parseFields fuel rest2).map (fun p => (J.jobj (objOfPairs p.1), p.2))
      else if c = 'n' then
        match rest with
        | 'u' :: 'l' :: 'l' :: rest2 => some (J.jnull, rest2)
        | _ => none
      else if c = 't' then
        match rest with
        | 'r' :: 'u' :: 'e' :: rest2 => some (J.jbool true, rest2)
        | _ => none
      else if c = 'f' then
        match rest with
        | 'a' :: 'l' :: 's' :: 'e' :: rest2 => some (J.jbool false, rest2)
        | _ => none
      else (parseNum (c :: rest)).map (fun p => (J.jnum p.1, p.2))

/-- Elements of a non-empty array, positioned at the first element. -/
def parseItems : Nat → List Char → Option (List J × List Char)
  | 0, _ => none
  | fuel + 1, s =>
    match parseVal fuel s with
    | none => none
    | some (v, r) =>
      match skipWs r with
      | ',' :: r2 => (parseItems fuel r2).map (fun p => (v :: p.1, p.2))
      | ']' :: r2 => some ([v], r2)
      | _ => none

/-- Key/value pairs of a non-empty object, positioned at the first key. -/
def parseFields : Nat → List Char → Option (List (List Char × J) × List Char)
  | 0, _ => none
  | fuel + 1, s =>
    match skipWs s with
    | '"' :: r =>
      match scanStr r with
      | none => none
      | some (key, r1) =>
        match skipWs r1 with
        | ':' :: r2 =>
          match parseVal fuel r2 with
          | none => none
          | some (v, r3) =>
            match skipWs r3 with
            | ',' :: r4 => (parseFields fuel r4).map (fun p => ((key, v) :: p.1, p.2))
            | '}' :: r4 => some ([(key, v)], r4)
            | _ => none
        | _ => none
    | _ => none

end

/-- Python `json.load` on file content: parse one value and require only
whitespace afterwards; `none` models `json.JSONDecodeError` (the
`CorruptStore` condition).  The fuel bound `2 * length + 2` dominates the
parser's consumption, which spends at most two units per input character. -/
def pyLoads (s : List Char) : Option J :=
  match parseVal (2 * s.length + 2) s with
  | some (v, r) => if skipWs r = [] then some v else none
  | none => none

/-! ## JSON serialization (`json.dump(books, file, ensure_ascii=False, indent=4)`) -/

/-- Newline followed by the four-spaces-per-level indent that
`json.dump(..., indent=4)` emits. -/
def nlIndent (level : Nat) : List Char := '\n' :: List.replicate (4 * level) ' '

def hexDigit (d : Nat) : Char := if d < 10 then digitChar d else Char.ofNat (87 + d)

/-- Escaping of one character by the `ensure_ascii=False` encoder
(`py_encode_basestring`): quote, backslash and control characters are
escaped, everything else is written verbatim. -/
def escChars (c : Char) : List Char :=
  if c = '"' then ['\\', '"']
  else if c = '\\' then ['\\', '\\']
  else if c = Char.ofNat 8 then ['\\', 'b']
  else if c = Char.ofNat 12 then ['\\', 'f']
  else if c = '\n' then ['\\', 'n']
  else if c = '\r' then ['\\', 'r']
  else if c = '\t' then ['\\', 't']
  else if c.toNat < 32 then ['\\', 'u', '0', '0', hexDigit (c.toNat / 16), hexDigit (c.toNat % 16)]
  else [c]

def escape (s : List Char) : List Char := (s.map escChars).flatten

mutual

/-- Serialization of a JSON value at an indent level, matching
`json.dump(v, f, ensure_ascii=False, indent=4)`. -/
def dumpVal : Nat → J → List Char
  | _, .jnull => "null".data
  | _, .jbool true => "true".data
  | _, .jbool false => "false".data
  | _, .jnum n => intChars n
  | _, .jstr s => '"' :: (escape s ++ ['"'])
  | _, .jarr [] => ['[', ']']
  | level, .jarr (x :: xs) =>
    '[' :: (nlIndent (level + 1) ++ dumpVal (level + 1) x ++
      dumpItems (level + 1) xs ++ nlIndent level ++ [']'])
  | _, .jobj [] => ['{', '}']
  | level, .jobj (f :: fs) =>
    '{' :: (nlIndent (level + 1) ++ dumpField (level + 1) f ++
      dumpFields (level + 1) fs ++ nlIndent level ++ ['}'])

/-- Serialization of one `"key": value` pair. -/
def dumpField : Nat → List Char × J → List Char
  | level, (k, v) => '"' :: (escape k ++ ['"', ':', ' '] ++ dumpVal level v)

/-- Serialization of the second and later array elements, each preceded by
the `,` item separator and the newline-indent. -/
def dumpItems : Nat → List J → List Char
  | _, [] => []
  | level, x :: xs => ',' :: (nlIndent level ++ dumpVal level x) ++ dumpItems level xs

/-- Serialization of the second and later object fields. -/
def dumpFields : Nat → List (List Char × J) → List Char
  | _, [] => []
  | level, f :: fs => ',' :: (nlIndent level ++ dumpField level f) ++ dumpFields level fs

end

/-! ## File-level persistence -/

/-- `save_books`: the exact character content written to `books.json`. -/
def save_books_file (v : J) : List Char := dumpVal 0 v

/-- `load_books` at file level: an absent file yields the empty collection;
otherwise the file content is parsed by `json.load`. -/
def load_books_file : Option (List Char) → Option J
  | none => some (J.jarr [])
  | some content => pyLoads content

/-- The JSON object `Book.__dict__` of a record, keys in attribute insertion
order. -/
def bookToJ (b : BookRec) : J :=
  .jobj [("id".data, .jnum b.id), ("title".data, .jstr b.title.data),
    ("author".data, .jstr b.author.data), ("year".data, .jnum b.year),
    ("status".data, .jstr b.status.data)]

/-- The JSON array persisted for a list of records. -/
def booksToJ (bs : List BookRec) : J := .jarr (bs.map bookToJ)

/-- Python `==` between a JSON value and an `int` (`book['id'] != book_id`):
numbers compare numerically, booleans equal `0`/`1`, all other values are
unequal to an integer. -/
def jEqInt (v : J) (n : Int) : Bool :=
  match v with
  | .jnum m => m == n
  | .jbool b => (if b then (1 : Int) else 0) == n
  | _ => false

/-- `delete_book` at file level: load the file, filter by id, and write back
only when a record was removed; the boolean records whether `save_books`
ran.  The outer `none` models an uncaught exception: content that is not a
JSON array of objects each carrying an `id` key makes the Python code raise
(`TypeError` / `KeyError`) while iterating. -/
def delete_book_file (book_id : Int) (file : Option (List Char)) :
    Option (Option (List Char) × Bool) :=
  match load_books_file file with
  | some (.jarr items) =>
    match items.mapM (fun it =>
        match it with
        | .jobj fs => (objLookup fs "id".data).map (fun v => (it, v))
        | _ => none) with
    | some tagged =>
      let kept := tagged.filter (fun p => !(jEqInt p.2 book_id))
      if kept.length = items.length then some (file, false)
      else some (some (save_books_file (.jarr (kept.map Prod.fst))), true)
    | none => none
  | _ => none

/-! ## Well-formedness of persisted text

Characters that the `ensure_ascii=False` encoder copies verbatim: not a
quote, not a backslash, not a control character. -/

def wfChar (c : Char) : Bool := 32 ≤ c.toNat && c != '"' && c != '\\'

def wfStr (s : List Char) : Bool := s.all wfChar

def wfBook (b : BookRec) : Bool :=
  wfStr b.title.data && wfStr b.author.data && wfStr b.status.data

def wfBooks (bs : List BookRec) : Bool := bs.all wfBook

/-! ## Sequences of add operations -/

/-- Run a sequence of add operations (title, author, year) left to right. -/
def run_adds : List (String × String × Int) → List BookRec → List BookRec
  | [], books => books
  | (t, a, y) :: ops, books => run_adds ops (add_book t a y books)

/-- The ids assigned to the newly added books, in order of addition. -/
def assigned_ids : List (String × String × Int) → List BookRec → List Int
  | [], _ => []
  | (t, a, y) :: ops, books => get_next_id books :: assigned_ids ops (add_book t a y books)

/-! ## Lemmas: id assignment -/

theorem foldl_max_ge_init (l : List BookRec) (a : Int) :
    a ≤ l.foldl (fun m x => max m x.id) a := by
  induction l generalizing a with
  | nil => simp
  | cons b rest ih => exact le_trans (le_max_left _ _) (ih (max a b.id))

theorem foldl_max_ge_mem (l : List BookRec) (a : Int) (x : BookRec) (hx : x ∈ l) :
    x.id ≤ l.foldl (fun m y => max m y.id) a := by
  induction l generalizing a with
  | nil => cases hx
  | cons b rest ih =>
    rcases List.mem_cons.mp hx with h | h
    · subst h
      exact le_trans (le_max_right _ _) (foldl_max_ge_init rest _)
    · exact ih _ h

/-- Every id in the store is strictly below the next assigned id. -/
theorem id_lt_get_next_id (books : List BookRec) (b : BookRec) (hb : b ∈ books) :
    b.id < get_next_id books := by
  cases books with
  | nil => cases hb
  | cons x rest =>
    have : b.id ≤ rest.foldl (fun m y => max m y.id) x.id := by
      rcases List.mem_cons.mp hb with h | h
      · subst h; exact foldl_max_ge_init rest _
      · exact foldl_max_ge_mem rest _ b h
    simp only [get_next_id]
    omega

theorem ids_add_book (t a : String) (y : Int) (books : List BookRec) :
    ids (add_book t a y books) = ids books ++ [get_next_id books] := by
  simp [ids, add_book, mkBook]

/-- Adding a book increments the next id by exactly one. -/
theorem get_next_id_add_book (t a : String) (y : Int) (books : List BookRec) :
    get_next_id (add_book t a y books) = get_next_id books + 1 := by
  cases books with
  | nil => rfl
  | cons x rest =>
    have hm : (mkBook t a y (x :: rest)).id =
        rest.foldl (fun m y => max m y.id) x.id + 1 := rfl
    show get_next_id (x :: (rest ++ [mkBook t a y (x :: rest)])) =
      get_next_id (x :: rest) + 1
    simp only [get_next_id, List.foldl_append, List.foldl_cons, List.foldl_nil, hm]
    rw [max_eq_right (by omega)]

theorem nodup_ids_add_book (t a : String) (y : Int) (books : List BookRec)
    (h : (ids books).Nodup) : (ids (add_book t a y books)).Nodup := by
  rw [ids_add_book]
  apply List.Nodup.append h (List.nodup_singleton _)
  intro i hi hi'
  simp only [List.mem_singleton] at hi'
  subst hi'
  obtain ⟨b, hb, heq⟩ := List.mem_map.mp hi
  have := id_lt_get_next_id books b hb
  omega

/-! ## Lemmas: update_status -/

theorem update_status_not_found (bid : Int) (st : String) (books : List BookRec)
    (h : ∀ b ∈ books, b.id ≠ bid) :
    update_status bid st books = (books, .notFound) := by
  induction books with
  | nil => rfl
  | cons b rest ih =>
    have hb : ¬(b.id = bid) := h b (List.mem_cons_self b rest)
    simp [update_status, hb, ih (fun x hx => h x (List.mem_cons_of_mem b hx))]

theorem update_status_invalid_first (bid : Int) (st : String) (pre : List BookRec)
    (b : BookRec) (post : List BookRec)
    (hst : validStatuses.contains st = false)
    (hpre : ∀ x ∈ pre, x.id ≠ bid) (hb : b.id = bid) :
    update_status bid st (pre ++ b :: post) = (pre ++ b :: post, .invalidStatus) := by
  induction pre with
  | nil =>
    have hst' : st ∉ validStatuses := by simpa using hst
    simp [update_status, hb, hst']
  | cons x xs ih =>
    have hx : ¬(x.id = bid) := hpre x (List.mem_cons_self x xs)
    simp [update_status, hx, ih (fun z hz => hpre z (List.mem_cons_of_mem x hz))]

/-- Decomposition of a store at the first record carrying a given id. -/
theorem exists_first_match (books : List BookRec) (bid : Int)
    (h : ∃ b ∈ books, b.id = bid) :
    ∃ pre b post, books = pre ++ b :: post ∧ (∀ x ∈ pre, x.id ≠ bid) ∧ b.id = bid := by
  induction books with
  | nil => simp at h
  | cons c rest ih =>
    by_cases hc : c.id = bid
    · exact ⟨[], c, rest, rfl, by simp, hc⟩
    · have hrest : ∃ b ∈ rest, b.id = bid := by
        obtain ⟨b, hb, hbid⟩ := h
        rcases List.mem_cons.mp hb with rfl | hb'
        · exact absurd hbid hc
        · exact ⟨b, hb', hbid⟩
      obtain ⟨pre, b, post, heq, hpre, hbid⟩ := ih hrest
      refine ⟨c :: pre, b, post, by rw [heq]; rfl, ?_, hbid⟩
      intro x hx
      rcases List.mem_cons.mp hx with rfl | h'
      · exact hc
      · exact hpre x h'

/-! ## Lemmas: search -/

theorem isPref_iff (s : List Char) : ∀ l, isPref s l = true ↔ s <+: l := by
  induction s with
  | nil => intro l; simp [isPref]
  | cons a as ih =>
    intro l
    cases l with
    | nil => simp [isPref]
    | cons b bs => simp [isPref, List.cons_prefix_cons, ih]

theorem hasSub_iff (s l : List Char) : hasSub s l = true ↔ s <:+: l := by
  induction l with
  | nil => simp [hasSub, isPref_iff]
  | cons c cs ih => simp [hasSub, isPref_iff, ih, List.infix_cons_iff]

/-! ## Claim C1 -/

/-- C1, counterexample: starting from the empty store, add two books (ids 1
and 2), delete book 2, and add again: `get_next_id` computes max id + 1 = 2,
so the id 2 that was removed by the delete operation is assigned again by the
subsequent add, refuting "never assigned again". -/
theorem c1_counterexample :
    2 ∈ ids (add_book "b" "b" 2 (add_book "a" "a" 1 [])) ∧
    delete_book 2 (add_book "b" "b" 2 (add_book "a" "a" 1 [])) =
      (add_book "a" "a" 1 [], true) ∧
    (mkBook "c" "c" 3 (delete_book 2 (add_book "b" "b" 2 (add_book "a" "a" 1 []))).1).id
      = 2 := by
  decide

/-- C1, amended: an id removed by a delete can be reassigned by a later add;
the add operation assigns 1 + the maximum id currently in the store (1 if
empty), so a removed id `d` is never reassigned as long as some record with
id at least `d` remains in the store. -/
theorem c1_amended_no_reuse (books : List BookRec) (d : Int) (t a : String) (y : Int)
    (h : ∃ b ∈ books, d ≤ b.id) :
    d < get_next_id books ∧ (mkBook t a y books).id ≠ d := by
  obtain ⟨b, hb, hd⟩ := h
  have hlt := id_lt_get_next_id books b hb
  have hid : (mkBook t a y books).id = get_next_id books := rfl
  exact ⟨by omega, by rw [hid]; omega⟩

/-- C1, witness for the amended theorem at a concrete store. -/
theorem c1_amended_no_reuse_witness :
    (3 : Int) < get_next_id [⟨5, "t", "a", 2000, "в наличии"⟩] ∧
    (mkBook "x" "y" 1 [⟨5, "t", "a", 2000, "в наличии"⟩]).id ≠ 3 :=
  c1_amended_no_reuse [⟨5, "t", "a", 2000, "в наличии"⟩] 3 "x" "y" 1
    ⟨⟨5, "t", "a", 2000, "в наличии"⟩, by decide, by decide⟩

/-! ## Claim C2 -/

/-- C2, code bug: in the add action (menu choice `'1'`), a year input that
does not parse as an integer makes `int(input(...))` raise an uncaught
`ValueError`, crashing the session — unlike the delete (`'2'`) and
update-status (`'5'`) branches, whose `int` calls are guarded by
`except ValueError` and continue the loop as the spec describes. -/
theorem c2_add_year_crash :
    pyInt "abc" = none ∧
    (main_step "1" "Dune" "Herbert" "abc" "" "" []).1 = StepOutcome.crashed ∧
    (main_step "2" "" "" "" "abc" "" []).1 = StepOutcome.ok ∧
    (main_step "5" "" "" "" "abc" "в наличии" []).1 = StepOutcome.ok := by
  decide

/-! ## Claim C3 -/

/-- C3, counterexample: the query "1965" equals the decimal form of the year
of book 1, yet book 2 — whose year is 2000 — is also returned, because the
query occurs as a substring of its title; so the search does not return
"exactly the records whose year equals that query". -/
theorem c3_counterexample :
    search_book "1965" [⟨1, "Dune", "Herbert", 1965, "В наличии"⟩,
        ⟨2, "1965", "X", 2000, "В наличии"⟩] =
      [⟨1, "Dune", "Herbert", 1965, "В наличии"⟩, ⟨2, "1965", "X", 2000, "В наличии"⟩] ∧
    intStr 1965 = "1965" ∧
    (⟨2, "1965", "X", 2000, "В наличии"⟩ : BookRec).year ≠ 1965 := by
  decide

/-- C3, amended: for a query equal to the decimal form of a year, the search
returns every record with that year, but may additionally return records in
which the query occurs case-insensitively in the title or the author; no
record outside these three match conditions is returned. -/
theorem c3_amended_search_year (q : String) (books : List BookRec) :
    (∀ b ∈ books, intStr b.year = q → b ∈ search_book q books) ∧
    (∀ b ∈ search_book q books,
      hasSub (pyLower q).data (pyLower b.title).data = true ∨
      hasSub (pyLower q).data (pyLower b.author).data = true ∨
      intStr b.year = q) := by
  constructor
  · intro b hb hy
    rw [search_book, List.mem_filter]
    refine ⟨hb, ?_⟩
    simp [hy]
  · intro b hb
    rw [search_book, List.mem_filter] at hb
    have h2 := hb.2
    simp only [Bool.or_eq_true, beq_iff_eq] at h2
    rcases h2 with (h | h) | h
    · exact Or.inl h
    · exact Or.inr (Or.inl h)
    · exact Or.inr (Or.inr h.symm)

/-- C3, witness for the amended theorem: the year match is returned. -/
theorem c3_amended_search_year_witness :
    (⟨1, "Dune", "Herbert", 1965, "В наличии"⟩ : BookRec) ∈
      search_book "1965" [⟨1, "Dune", "Herbert", 1965, "В наличии"⟩] :=
  (c3_amended_search_year "1965" [⟨1, "Dune", "Herbert", 1965, "В наличии"⟩]).1
    ⟨1, "Dune", "Herbert", 1965, "В наличии"⟩ (by decide) (by decide)

/-! ## Claim C4 -/

/-- C4, counterexample: with a status value outside the enum and an id absent
from the store, `update_status` reports "not found", not a validation
error (the id check precedes the status check), refuting "a validation error
is reported" for every store and id. -/
theorem c4_counterexample :
    validStatuses.contains "checked_out" = false ∧
    update_status 1 "checked_out" [] = ([], UpdateOutcome.notFound) ∧
    UpdateOutcome.notFound ≠ UpdateOutcome.invalidStatus := by
  decide

/-- C4, amended: update-status with a status value outside the enum never
returns the `updated` outcome (the only path that saves), and leaves the
collection unchanged, so no write occurs; a validation error is reported when
a record with the id exists, and "not found" is reported otherwise. -/
theorem c4_amended_invalid_status_no_write (bid : Int) (st : String)
    (books : List BookRec) (h : validStatuses.contains st = false) :
    (update_status bid st books).1 = books ∧
    (update_status bid st books).2 ≠ UpdateOutcome.updated ∧
    ((∃ b ∈ books, b.id = bid) →
      (update_status bid st books).2 = UpdateOutcome.invalidStatus) ∧
    ((∀ b ∈ books, b.id ≠ bid) →
      (update_status bid st books).2 = UpdateOutcome.notFound) := by
  by_cases hex : ∃ b ∈ books, b.id = bid
  · obtain ⟨pre, b, post, heq, hpre, hb⟩ := exists_first_match books bid hex
    subst heq
    rw [update_status_invalid_first bid st pre b post h hpre hb]
    exact ⟨rfl, by simp, fun _ => rfl, fun hall => absurd hb (hall b (by simp))⟩
  · have hall : ∀ b ∈ books, b.id ≠ bid := by
      intro b hb hbid
      exact hex ⟨b, hb, hbid⟩
    rw [update_status_not_found bid st books hall]
    exact ⟨rfl, by simp, fun hx => absurd hx hex, fun _ => rfl⟩

/-- C4, witness for the amended theorem at a concrete store. -/
theorem c4_amended_invalid_status_no_write_witness :
    (update_status 1 "checked_out" [⟨1, "t", "a", 2000, "в наличии"⟩]).1 =
      [⟨1, "t", "a", 2000, "в наличии"⟩] ∧
    (update_status 1 "checked_out" [⟨1, "t", "a", 2000, "в наличии"⟩]).2 =
      UpdateOutcome.invalidStatus :=
  ⟨(c4_amended_invalid_status_no_write 1 "checked_out" _ (by decide)).1,
   (c4_amended_invalid_status_no_write 1 "checked_out" _ (by decide)).2.2.1
     ⟨⟨1, "t", "a", 2000, "в наличии"⟩, by decide, by decide⟩⟩

/-! ## Claim C5 -/

/-- C5, confirmed: on a store decomposed at the first record with the given
id, a successful update-status call (valid status value) returns the store
with only that record's `status` field replaced — every other record and
every other field of the matching record is unchanged — together with the
`updated` outcome, which is exactly the path that persists the collection. -/
theorem c5_update_frame (bid : Int) (st : String) (pre post : List BookRec)
    (b : BookRec) (hst : validStatuses.contains st = true)
    (hpre : ∀ x ∈ pre, x.id ≠ bid) (hb : b.id = bid) :
    update_status bid st (pre ++ b :: post) =
      (pre ++ { b with status := st } :: post, UpdateOutcome.updated) := by
  induction pre with
  | nil =>
    have hst' : st ∈ validStatuses := by simpa using hst
    simp [update_status, hb, hst']
  | cons x xs ih =>
    have hx : ¬(x.id = bid) := hpre x (List.mem_cons_self x xs)
    simp [update_status, hx, ih (fun z hz => hpre z (List.mem_cons_of_mem x hz))]

/-- C5, witness at a concrete two-record store. -/
theorem c5_update_frame_witness :
    update_status 2 "выдана"
        [⟨1, "t", "a", 2000, "в наличии"⟩, ⟨2, "u", "b", 2001, "в наличии"⟩] =
      ([⟨1, "t", "a", 2000, "в наличии"⟩, ⟨2, "u", "b", 2001, "выдана"⟩],
        UpdateOutcome.updated) :=
  c5_update_frame 2 "выдана" [⟨1, "t", "a", 2000, "в наличии"⟩] []
    ⟨2, "u", "b", 2001, "в наличии"⟩ (by decide) (by decide) (by decide)

/-! ## Claim C7 -/

/-- C7, confirmed: starting from any store, the ids assigned by a sequence of
add operations are strictly increasing in order of addition, and every add
preserves the id-uniqueness invariant of the store. -/
theorem c7_add_ids_increasing_unique (ops : List (String × String × Int))
    (books : List BookRec) :
    List.Chain' (· < ·) (assigned_ids ops books) ∧
    ((ids books).Nodup → (ids (run_adds ops books)).Nodup) := by
  induction ops generalizing books with
  | nil => exact ⟨List.chain'_nil, fun h => h⟩
  | cons op ops ih =>
    obtain ⟨t, a, y⟩ := op
    constructor
    · show List.Chain' (· < ·)
        (get_next_id books :: assigned_ids ops (add_book t a y books))
      rw [List.chain'_cons']
      refine ⟨?_, (ih (add_book t a y books)).1⟩
      intro z hz
      cases ops with
      | nil => simp [assigned_ids] at hz
      | cons op2 ops2 =>
        obtain ⟨t2, a2, y2⟩ := op2
        simp only [assigned_ids, List.head?_cons, Option.mem_some_iff] at hz
        rw [← hz, get_next_id_add_book]
        omega
    · intro h
      exact (ih (add_book t a y books)).2 (nodup_ids_add_book t a y books h)

/-- C7, witness: a concrete two-add run from the empty store. -/
theorem c7_add_ids_increasing_unique_witness :
    List.Chain' (· < ·) (assigned_ids [("a", "b", 1), ("c", "d", 2)] []) ∧
    (ids (run_adds [("a", "b", 1), ("c", "d", 2)] [])).Nodup :=
  ⟨(c7_add_ids_increasing_unique [("a", "b", 1), ("c", "d", 2)] []).1,
   (c7_add_ids_increasing_unique [("a", "b", 1), ("c", "d", 2)] []).2 (by decide)⟩

/-! ## Claim C8 -/

/-- C8, confirmed: the search result is a sublist of the store (store order
preserved, and an empty result — not an error — when nothing matches), and a
record is returned exactly when the query case-insensitively occurs in its
title or author, or equals the decimal string of its year, as the
specification-side predicate states. -/
theorem c8_search_characterization (q : String) (books : List BookRec) :
    List.Sublist (search_book q books) books ∧
    (∀ b, b ∈ search_book q books ↔ b ∈ books ∧ spec_search_matches q b) := by
  constructor
  · exact List.filter_sublist books
  · intro b
    rw [search_book, List.mem_filter]
    constructor
    · rintro ⟨hb, hcond⟩
      refine ⟨hb, ?_⟩
      simp only [Bool.or_eq_true, beq_iff_eq] at hcond
      simp only [spec_search_matches]
      rcases hcond with (h | h) | h
      · exact Or.inl ((hasSub_iff _ _).mp h)
      · exact Or.inr (Or.inl ((hasSub_iff _ _).mp h))
      · exact Or.inr (Or.inr h)
    · rintro ⟨hb, hm⟩
      refine ⟨hb, ?_⟩
      simp only [Bool.or_eq_true, beq_iff_eq]
      simp only [spec_search_matches] at hm
      rcases hm with h | h | h
      · exact Or.inl (Or.inl ((hasSub_iff _ _).mpr h))
      · exact Or.inl (Or.inr ((hasSub_iff _ _).mpr h))
      · exact Or.inr h

/-! ## Claim C10 -/

/-- C10, confirmed: every book created by the add operation carries the
initial status literal "В наличии" (capital first letter), and that literal
is not a member of the status list `["в наличии", "выдана"]` accepted by
`update_status` — so a freshly added book's status differs from every value
update-status can set or would accept. -/
theorem c10_default_status_outside_enum :
    (∀ t a y books, (mkBook t a y books).status = "В наличии") ∧
    validStatuses.contains "В наличии" = false ∧
    validStatuses = ["в наличии", "выдана"] :=
  ⟨fun _ _ _ _ => rfl, by decide, rfl⟩

/-! ## Lemmas: whitespace skipping -/

theorem skipWs_not_ws (c : Char) (l : List Char) (h : isWsChar c = false) :
    skipWs (c :: l) = c :: l := by
  simp [skipWs, h]

theorem skipWs_ws (c : Char) (l : List Char) (h : isWsChar c = true) :
    skipWs (c :: l) = skipWs l := by
  simp [skipWs, h]

theorem skipWs_replicate (n : Nat) (l : List Char) :
    skipWs (List.replicate n ' ' ++ l) = skipWs l := by
  induction n with
  | zero => simp
  | succ n ih => rw [List.replicate_succ, List.cons_append, skipWs_ws ' ' _ (by decide), ih]

theorem skipWs_nlIndent (lvl : Nat) (l : List Char) :
    skipWs (nlIndent lvl ++ l) = skipWs l := by
  rw [nlIndent, List.cons_append, skipWs_ws '\n' _ (by decide), skipWs_replicate]

/-! ## Lemmas: decimal digits -/

theorem isDigit_mem (c : Char) (h : isDigit c = true) :
    c = '0' ∨ c = '1' ∨ c = '2' ∨ c = '3' ∨ c = '4' ∨
    c = '5' ∨ c = '6' ∨ c = '7' ∨ c = '8' ∨ c = '9' := by
  have hm : c ∈ digitList := by simpa [isDigit] using h
  simpa [digitList] using hm

theorem digitChar_lt10 (d : Nat) (h : d < 10) :
    isDigit (digitChar d) = true ∧ digitVal (digitChar d) = d ∧
    (digitChar d = '0' ↔ d = 0) := by
  interval_cases d <;> exact ⟨by decide, by decide, by decide⟩

theorem isDigit_facts (c : Char) (h : isDigit c = true) :
    c ≠ '"' ∧ c ≠ '[' ∧ c ≠ '{' ∧ c ≠ 'n' ∧ c ≠ 't' ∧ c ≠ 'f' ∧
    c ≠ '-' ∧ isWsChar c = false := by
  rcases isDigit_mem c h with rfl | rfl | rfl | rfl | rfl | rfl | rfl | rfl | rfl | rfl <;>
    decide

/-! ## Lemmas: rendering and parsing of natural numbers -/

theorem natCharsAux_irrel (n : Nat) : ∀ f1 f2, n < f1 → n < f2 →
    natCharsAux f1 n = natCharsAux f2 n := by
  induction n using Nat.strong_induction_on with
  | _ n ih =>
    intro f1 f2 h1 h2
    cases f1 with
    | zero => omega
    | succ g1 =>
      cases f2 with
      | zero => omega
      | succ g2 =>
        simp only [natCharsAux]
        by_cases h : n < 10
        · simp [h]
        · simp only [if_neg h]
          rw [ih (n / 10) (by omega) g1 g2 (by omega) (by omega)]

theorem natChars_unfold (n : Nat) :
    natChars n =
      if n < 10 then [digitChar n] else natChars (n / 10) ++ [digitChar (n % 10)] := by
  show natCharsAux (n + 1) n = _
  simp only [natCharsAux]
  by_cases h : n < 10
  · simp [h]
  · simp only [if_neg h]
    rw [natCharsAux_irrel (n / 10) n (n / 10 + 1) (by omega) (by omega)]
    rfl

theorem natChars_ne_nil (n : Nat) : natChars n ≠ [] := by
  rw [natChars_unfold]
  split <;> simp

theorem natChars_cons (n : Nat) : ∃ c t, natChars n = c :: t := by
  cases hcc : natChars n with
  | nil => exact absurd hcc (natChars_ne_nil _)
  | cons a b => exact ⟨a, b, rfl⟩

theorem natChars_all_digits (n : Nat) : ∀ c ∈ natChars n, isDigit c = true := by
  induction n using Nat.strong_induction_on with
  | _ n ih =>
    intro c hc
    rw [natChars_unfold] at hc
    by_cases h : n < 10
    · rw [if_pos h] at hc
      simp only [List.mem_singleton] at hc
      subst hc
      exact (digitChar_lt10 n h).1
    · rw [if_neg h] at hc
      rcases List.mem_append.mp hc with h' | h'
      · exact ih (n / 10) (by omega) c h'
      · simp only [List.mem_singleton] at h'
        subst h'
        exact (digitChar_lt10 (n % 10) (by omega)).1

theorem natChars_head_ne_zero (n : Nat) : 1 ≤ n → ∀ c t, natChars n = c :: t → c ≠ '0' := by
  induction n using Nat.strong_induction_on with
  | _ n ih =>
    intro hn c t hct
    rw [natChars_unfold] at hct
    by_cases h : n < 10
    · rw [if_pos h] at hct
      injection hct with h1 h2
      intro hc0
      rw [← h1] at hc0
      exact absurd ((digitChar_lt10 n h).2.2.mp hc0) (by omega)
    · rw [if_neg h] at hct
      obtain ⟨c', t', hsplit⟩ := natChars_cons (n / 10)
      rw [hsplit, List.cons_append] at hct
      injection hct with h1 h2
      rw [← h1]
      exact ih (n / 10) (by omega) (by omega) c' t' hsplit

theorem parseNatAcc_no_digit (acc : Nat) (l : List Char) (h : digitStart l = false) :
    parseNatAcc acc l = (acc, l) := by
  cases l with
  | nil => rfl
  | cons c r =>
    have hc : isDigit c = false := by simpa [digitStart] using h
    simp [parseNatAcc, hc]

theorem parseNatAcc_natChars (n : Nat) : ∀ acc rest,
    parseNatAcc acc (natChars n ++ rest) =
      parseNatAcc (acc * 10 ^ (natChars n).length + n) rest := by
  induction n using Nat.strong_induction_on with
  | _ n ih =>
    intro acc rest
    rw [natChars_unfold]
    by_cases h : n < 10
    · simp only [if_pos h, List.singleton_append, List.length_cons, List.length_nil]
      have hd := digitChar_lt10 n h
      simp only [parseNatAcc, hd.1, if_true, hd.2.1]
      norm_num
    · simp only [if_neg h]
      rw [List.append_assoc, ih (n / 10) (by omega) acc ([digitChar (n % 10)] ++ rest)]
      have hd := digitChar_lt10 (n % 10) (by omega)
      simp only [List.singleton_append, parseNatAcc, hd.1, if_true, hd.2.1]
      have harith : (acc * 10 ^ (natChars (n / 10)).length + n / 10) * 10 + n % 10 =
          acc * 10 ^ (natChars (n / 10) ++ [digitChar (n % 10)]).length + n := by
        have hl : (natChars (n / 10) ++ [digitChar (n % 10)]).length =
            (natChars (n / 10)).length + 1 := by simp
        rw [hl, pow_succ]
        calc (acc * 10 ^ (natChars (n / 10)).length + n / 10) * 10 + n % 10
            = acc * (10 ^ (natChars (n / 10)).length * 10) +
              (10 * (n / 10) + n % 10) := by ring
          _ = acc * (10 ^ (natChars (n / 10)).length * 10) + n := by
              rw [Nat.div_add_mod]
      rw [harith]
      rfl

theorem parseNumNN_natChars (n : Nat) (rest : List Char)
    (h1 : digitStart rest = false) (h2 : floatStart rest = false) :
    parseNumNN (natChars n ++ rest) = some (n, rest) := by
  obtain ⟨c, t, hct⟩ := natChars_cons n
  have hdig : isDigit c = true :=
    natChars_all_digits n c (by rw [hct]; exact List.mem_cons_self _ _)
  have hguard : ¬(c = '0' ∧ digitStart (t ++ rest) = true) := by
    rw [natChars_unfold] at hct
    by_cases h10 : n < 10
    · rw [if_pos h10] at hct
      injection hct with hc ht
      rintro ⟨hc0, hds⟩
      rw [← ht, List.nil_append, h1] at hds
      exact Bool.false_ne_true hds
    · rw [if_neg h10] at hct
      obtain ⟨c', t', hsplit⟩ := natChars_cons (n / 10)
      rw [hsplit, List.cons_append] at hct
      injection hct with hc ht
      rintro ⟨hc0, _⟩
      rw [← hc] at hc0
      exact natChars_head_ne_zero (n / 10) (by omega) c' t' hsplit hc0
  have hp : parseNatAcc 0 (c :: (t ++ rest)) = (n, rest) := by
    rw [← List.cons_append, ← hct, parseNatAcc_natChars, parseNatAcc_no_digit _ _ h1]
    simp
  rw [hct, List.cons_append]
  simp only [parseNumNN, hdig, if_true, hp]
  rw [if_neg hguard]
  simp [h2]

theorem parseNum_intChars (n : Int) (rest : List Char)
    (h1 : digitStart rest = false) (h2 : floatStart rest = false) :
    parseNum (intChars n ++ rest) = some (n, rest) := by
  rw [intChars]
  by_cases hn : n < 0
  · rw [if_pos hn]
    show parseNum ('-' :: (natChars n.natAbs ++ rest)) = _
    have hne : -(n.natAbs : Int) = n := by omega
    simp [parseNum, parseNumNN_natChars _ _ h1 h2, hne]
    rw [abs_of_neg hn]
    ring
  · rw [if_neg hn]
    obtain ⟨c, t, hct⟩ := natChars_cons n.toNat
    have hdig : isDigit c = true :=
      natChars_all_digits n.toNat c (by rw [hct]; exact List.mem_cons_self _ _)
    have hminus : c ≠ '-' := (isDigit_facts c hdig).2.2.2.2.2.2.1
    have hcast : (n.toNat : Int) = n := by omega
    rw [hct, List.cons_append]
    simp only [parseNum, if_neg hminus]
    rw [← List.cons_append, ← hct, parseNumNN_natChars _ _ h1 h2]
    simp [hcast]

/-! ## Lemmas: string content -/

theorem wfChar_facts (c : Char) (h : wfChar c = true) :
    c ≠ '"' ∧ c ≠ '\\' ∧ ¬(c.toNat < 32) ∧ escChars c = [c] := by
  simp only [wfChar, Bool.and_eq_true, bne_iff_ne, decide_eq_true_eq] at h
  obtain ⟨⟨h32, hq⟩, hb⟩ := h
  have h8 : c ≠ Char.ofNat 8 := by
    intro heq
    rw [heq] at h32
    exact absurd h32 (by decide)
  have h12 : c ≠ Char.ofNat 12 := by
    intro heq
    rw [heq] at h32
    exact absurd h32 (by decide)
  have hn : c ≠ '\n' := by
    intro heq
    rw [heq] at h32
    exact absurd h32 (by decide)
  have hr : c ≠ '\r' := by
    intro heq
    rw [heq] at h32
    exact absurd h32 (by decide)
  have ht : c ≠ '\t' := by
    intro heq
    rw [heq] at h32
    exact absurd h32 (by decide)
  refine ⟨hq, hb, by omega, ?_⟩
  simp only [escChars, if_neg hq, if_neg hb, if_neg h8, if_neg h12, if_neg hn,
    if_neg hr, if_neg ht, if_neg (by omega : ¬c.toNat < 32)]

theorem scanStr_append (s : List Char) (rest : List Char) (h : wfStr s = true) :
    scanStr (s ++ '"' :: rest) = some (s, rest) := by
  induction s with
  | nil =>
    rw [List.nil_append, scanStr.eq_def]
    simp
  | cons c cs ih =>
    simp only [wfStr, List.all_cons, Bool.and_eq_true] at h
    obtain ⟨hq, hbs, hctl, _⟩ := wfChar_facts c h.1
    rw [List.cons_append, scanStr.eq_def]
    simp [hq, hbs, hctl, ih h.2]

theorem escape_wf (s : List Char) (h : wfStr s = true) : escape s = s := by
  induction s with
  | nil => rfl
  | cons c cs ih =>
    simp only [wfStr, List.all_cons, Bool.and_eq_true] at h
    show (escChars c ++ (List.map escChars cs).flatten : List Char) = c :: cs
    rw [(wfChar_facts c h.1).2.2.2]
    have : ((List.map escChars cs).flatten : List Char) = cs := ih h.2
    rw [this]
    rfl

theorem hexVal_hexDigit (d : Nat) (h : d < 16) : hexVal (hexDigit d) = some d := by
  interval_cases d <;> decide

/-- The strict string scanner inverts the `ensure_ascii=False` encoder on
every string: quotes and backslashes come back through their two-character
escapes, the shortcut escapes restore their control characters, and the
`\u00XX` forms restore the remaining controls. -/
theorem scanStr_escape (s rest : List Char) :
    scanStr (escape s ++ '"' :: rest) = some (s, rest) := by
  induction s with
  | nil =>
    rw [show escape [] = [] from rfl, List.nil_append, scanStr.eq_def]
    simp
  | cons c cs ih =>
    have hesc : escape (c :: cs) ++ '"' :: rest =
        escChars c ++ (escape cs ++ '"' :: rest) := by
      show (escChars c ++ (List.map escChars cs).flatten) ++ '"' :: rest = _
      rw [List.append_assoc]
      rfl
    rw [hesc]
    by_cases h1 : c = '"'
    · subst h1
      rw [show escChars '"' = ['\\', '"'] from rfl, scanStr.eq_def]
      simp [escChar, ih]
    by_cases h2 : c = '\\'
    · subst h2
      rw [show escChars '\\' = ['\\', '\\'] from rfl, scanStr.eq_def]
      simp [escChar, ih]
    by_cases h3 : c = Char.ofNat 8
    · subst h3
      rw [show escChars (Char.ofNat 8) = ['\\', 'b'] by decide, scanStr.eq_def]
      simp [escChar, ih]
    by_cases h4 : c = Char.ofNat 12
    · subst h4
      rw [show escChars (Char.ofNat 12) = ['\\', 'f'] by decide, scanStr.eq_def]
      simp [escChar, ih]
    by_cases h5 : c = '\n'
    · subst h5
      rw [show escChars '\n' = ['\\', 'n'] by decide, scanStr.eq_def]
      simp [escChar, ih]
    by_cases h6 : c = '\r'
    · subst h6
      rw [show escChars '\r' = ['\\', 'r'] by decide, scanStr.eq_def]
      simp [escChar, ih]
    by_cases h7 : c = '\t'
    · subst h7
      rw [show escChars '\t' = ['\\', 't'] by decide, scanStr.eq_def]
      simp [escChar, ih]
    by_cases h8 : c.toNat < 32
    · rw [show escChars c = ['\\', 'u', '0', '0', hexDigit (c.toNat / 16),
        hexDigit (c.toNat % 16)] from by
          simp only [escChars, if_neg h1, if_neg h2, if_neg h3, if_neg h4,
            if_neg h5, if_neg h6, if_neg h7, if_pos h8]]
      rw [scanStr.eq_def]
      simp only [List.cons_append, List.nil_append]
      rw [if_neg (by decide : ¬('\\' : Char) = '"')]
      simp only [if_true,
        show hexVal '0' = some 0 from rfl,
        hexVal_hexDigit (c.toNat / 16) (by omega),
        hexVal_hexDigit (c.toNat % 16) (by omega)]
      rw [show ((0 * 16 + 0) * 16 + c.toNat / 16) * 16 + c.toNat % 16 = c.toNat
        by omega]
      rw [if_pos (Or.inl (by omega : c.toNat < 55296))]
      rw [ih]
      simp [Char.ofNat_toNat]
    · rw [show escChars c = [c] from by
        simp only [escChars, if_neg h1, if_neg h2, if_neg h3, if_neg h4,
          if_neg h5, if_neg h6, if_neg h7, if_neg h8]]
      rw [List.cons_append, List.nil_append, scanStr.eq_def]
      simp [h1, h2, h8, ih]

/-! ## Lemmas: parser stepping

Each lemma takes the fuel as a variable constrained by an equation, so that
rewriting matches the fuel expression syntactically at every use site. -/

theorem skipWs_idem (l : List Char) : skipWs (skipWs l) = skipWs l := by
  induction l with
  | nil => rfl
  | cons c r ih =>
    by_cases h : isWsChar c = true
    · rw [skipWs_ws c r h, ih]
    · rw [skipWs_not_ws c r (by simpa using h), skipWs_not_ws c r (by simpa using h)]

theorem parseVal_congr_ws (f : Nat) (hf : f ≠ 0) (s s' : List Char)
    (h : skipWs s = skipWs s') : parseVal f s = parseVal f s' := by
  obtain ⟨g, rfl⟩ : ∃ g, f = g + 1 := ⟨f - 1, by omega⟩
  rw [parseVal.eq_def]
  conv_rhs => rw [parseVal.eq_def]
  simp only [h]

theorem parseVal_str (f : Nat) (hf : f ≠ 0) (s rest : List Char) :
    parseVal f ('"' :: (escape s ++ '"' :: rest)) = some (J.jstr s, rest) := by
  obtain ⟨g, rfl⟩ : ∃ g, f = g + 1 := ⟨f - 1, by omega⟩
  rw [parseVal.eq_def]
  simp [skipWs_not_ws '"' _ (by decide), scanStr_escape s rest]

theorem parseVal_dispatch_num (f : Nat) (hf : f ≠ 0) (c : Char) (l : List Char)
    (hws : isWsChar c = false) (hq : c ≠ '"') (hlb : c ≠ '[') (hob : c ≠ '{')
    (hn : c ≠ 'n') (ht : c ≠ 't') (hf2 : c ≠ 'f') :
    parseVal f (c :: l) = (parseNum (c :: l)).map (fun p => (J.jnum p.1, p.2)) := by
  obtain ⟨g, rfl⟩ : ∃ g, f = g + 1 := ⟨f - 1, by omega⟩
  rw [parseVal.eq_def]
  simp [skipWs_not_ws c l hws, hq, hlb, hob, hn, ht, hf2]

theorem intChars_cons (n : Int) :
    ∃ c t, intChars n = c :: t ∧ (c = '-' ∨ isDigit c = true) := by
  rw [intChars]
  by_cases hn : n < 0
  · exact ⟨'-', natChars n.natAbs, by rw [if_pos hn], Or.inl rfl⟩
  · obtain ⟨c, t, hct⟩ := natChars_cons n.toNat
    exact ⟨c, t, by rw [if_neg hn, hct],
      Or.inr (natChars_all_digits _ c (by rw [hct]; exact List.mem_cons_self _ _))⟩

theorem parseVal_num (f : Nat) (hf : f ≠ 0) (n : Int) (rest : List Char)
    (h1 : digitStart rest = false) (h2 : floatStart rest = false) :
    parseVal f (intChars n ++ rest) = some (J.jnum n, rest) := by
  obtain ⟨c, t, hct, hc⟩ := intChars_cons n
  have hfacts : c ≠ '"' ∧ c ≠ '[' ∧ c ≠ '{' ∧ c ≠ 'n' ∧ c ≠ 't' ∧ c ≠ 'f' ∧
      isWsChar c = false := by
    rcases hc with rfl | hd
    · exact ⟨by decide, by decide, by decide, by decide, by decide, by decide, rfl⟩
    · have hi := isDigit_facts c hd
      exact ⟨hi.1, hi.2.1, hi.2.2.1, hi.2.2.2.1, hi.2.2.2.2.1, hi.2.2.2.2.2.1,
        hi.2.2.2.2.2.2.2⟩
  rw [hct, List.cons_append,
    parseVal_dispatch_num f hf c (t ++ rest) hfacts.2.2.2.2.2.2 hfacts.1 hfacts.2.1
      hfacts.2.2.1 hfacts.2.2.2.1 hfacts.2.2.2.2.1 hfacts.2.2.2.2.2.1,
    ← List.cons_append, ← hct, parseNum_intChars n rest h1 h2]
  rfl

/-- Variant of `parseVal_num` whose trailing context starts with a comma, the
shape arising inside serialized objects. -/
theorem parseVal_num_comma (f : Nat) (hf : f ≠ 0) (n : Int) (x : List Char) :
    parseVal f (intChars n ++ (',' :: x)) = some (J.jnum n, ',' :: x) :=
  parseVal_num f hf n (',' :: x) rfl rfl

theorem parseVal_arr_empty (f : Nat) (hf : f ≠ 0) (l r : List Char)
    (hc : skipWs l = ']' :: r) :
    parseVal f ('[' :: l) = some (J.jarr [], r) := by
  obtain ⟨g, rfl⟩ : ∃ g, f = g + 1 := ⟨f - 1, by omega⟩
  rw [parseVal.eq_def]
  simp [skipWs_not_ws '[' l (by decide), hc]

theorem parseVal_arr_items (f g : Nat) (hfg : f = g + 1) (l r : List Char) (c : Char)
    (hc : skipWs l = c :: r) (hne : c ≠ ']') :
    parseVal f ('[' :: l) =
      (parseItems g (c :: r)).map (fun p => (J.jarr p.1, p.2)) := by
  subst hfg
  rw [parseVal.eq_def]
  simp only [skipWs_not_ws '[' l (by decide), hc]
  simp [hne]

theorem parseVal_obj_fields (f g : Nat) (hfg : f = g + 1) (l r : List Char) (c : Char)
    (hc : skipWs l = c :: r) (hne : c ≠ '}') :
    parseVal f ('{' :: l) =
      (parseFields g (c :: r)).map (fun p => (J.jobj (objOfPairs p.1), p.2)) := by
  subst hfg
  rw [parseVal.eq_def]
  simp only [skipWs_not_ws '{' l (by decide), hc]
  simp [hne]

theorem parseItems_last (f g : Nat) (hfg : f = g + 1) (s r r2 : List Char) (v : J)
    (hv : parseVal g s = some (v, r)) (hr : skipWs r = ']' :: r2) :
    parseItems f s = some ([v], r2) := by
  subst hfg
  rw [parseItems.eq_def]
  simp [hv, hr]

theorem parseItems_cons (f g : Nat) (hfg : f = g + 1) (s r r2 : List Char) (v : J)
    (hv : parseVal g s = some (v, r)) (hr : skipWs r = ',' :: r2) :
    parseItems f s = (parseItems g r2).map (fun p => (v :: p.1, p.2)) := by
  subst hfg
  rw [parseItems.eq_def]
  simp [hv, hr]

theorem parseFields_cons (f g : Nat) (hfg : f = g + 1)
    (s r r1 r2 r3 r4 key : List Char) (v : J)
    (hs : skipWs s = '"' :: r) (hkey : scanStr r = some (key, r1))
    (hc : skipWs r1 = ':' :: r2) (hv : parseVal g r2 = some (v, r3))
    (hr : skipWs r3 = ',' :: r4) :
    parseFields f s = (parseFields g r4).map (fun p => ((key, v) :: p.1, p.2)) := by
  subst hfg
  rw [parseFields.eq_def]
  simp [hs, hkey, hc, hv, hr]

theorem parseFields_last (f g : Nat) (hfg : f = g + 1)
    (s r r1 r2 r3 r4 key : List Char) (v : J)
    (hs : skipWs s = '"' :: r) (hkey : scanStr r = some (key, r1))
    (hc : skipWs r1 = ':' :: r2) (hv : parseVal g r2 = some (v, r3))
    (hr : skipWs r3 = '}' :: r4) :
    parseFields f s = some ([(key, v)], r4) := by
  subst hfg
  rw [parseFields.eq_def]
  simp [hs, hkey, hc, hv, hr]

theorem parseFields_congr_ws (f : Nat) (hf : f ≠ 0) (s s' : List Char)
    (h : skipWs s = skipWs s') : parseFields f s = parseFields f s' := by
  obtain ⟨g, rfl⟩ : ∃ g, f = g + 1 := ⟨f - 1, by omega⟩
  rw [parseFields.eq_def]
  conv_rhs => rw [parseFields.eq_def]
  simp only [h]

theorem parseItems_congr_ws (f : Nat) (hf : f ≠ 0) (s s' : List Char)
    (h : skipWs s = skipWs s') : parseItems f s = parseItems f s' := by
  obtain ⟨g, rfl⟩ : ∃ g, f = g + 1 := ⟨f - 1, by omega⟩
  cases g with
  | zero =>
    rw [parseItems.eq_def]
    conv_rhs => rw [parseItems.eq_def]
    rfl
  | succ k =>
    have hv := parseVal_congr_ws (k + 1) (by omega) s s' h
    rw [parseItems.eq_def]
    conv_rhs => rw [parseItems.eq_def]
    simp [hv]

/-! ## Lemmas: parsing a dumped book record -/

/-- Canonical character stream of one serialized book at indent level 1. -/
theorem dumpVal_bookToJ (b : BookRec) (rest : List Char) :
    dumpVal 1 (bookToJ b) ++ rest =
      '{' :: (nlIndent 2 ++
        ('"' :: ("id".data ++ '"' :: ':' :: ' ' ::
          (intChars b.id ++ (',' :: (nlIndent 2 ++
        ('"' :: ("title".data ++ '"' :: ':' :: ' ' ::
          ('"' :: (escape b.title.data ++ '"' :: (',' :: (nlIndent 2 ++
        ('"' :: ("author".data ++ '"' :: ':' :: ' ' ::
          ('"' :: (escape b.author.data ++ '"' :: (',' :: (nlIndent 2 ++
        ('"' :: ("year".data ++ '"' :: ':' :: ' ' ::
          (intChars b.year ++ (',' :: (nlIndent 2 ++
        ('"' :: ("status".data ++ '"' :: ':' :: ' ' ::
          ('"' :: (escape b.status.data ++ '"' ::
            (nlIndent 1 ++ '}' :: rest)))))))))))))))))))))))))))) := by
  have e1 : escape ("id".data) = "id".data := rfl
  have e2 : escape ("title".data) = "title".data := rfl
  have e3 : escape ("author".data) = "author".data := rfl
  have e4 : escape ("year".data) = "year".data := rfl
  have e5 : escape ("status".data) = "status".data := rfl
  simp only [bookToJ, dumpVal, dumpField, dumpFields, e1, e2, e3, e4, e5]
  simp [List.append_assoc]

/-- Parsing the `json.dump` serialization of one book record at indent level
1 returns exactly its JSON object, leaving the following characters intact. -/
theorem parseVal_dumpBook (f : Nat) (b : BookRec) (rest : List Char) :
    parseVal (f + 7) (dumpVal 1 (bookToJ b) ++ rest) = some (bookToJ b, rest) := by
  have h5 : ∀ g, parseFields (g + 2)
      ('"' :: ("status".data ++ '"' :: ':' :: ' ' :: ('"' :: (escape b.status.data ++ '"' :: (nlIndent 1 ++ '}' :: rest))))) =
      some ([("status".data, J.jstr b.status.data)], rest) := by
    intro g
    have hv : parseVal (g + 1) (' ' :: ('"' :: (escape b.status.data ++ '"' :: (nlIndent 1 ++ '}' :: rest)))) =
        some (J.jstr b.status.data, nlIndent 1 ++ '}' :: rest) := by
      rw [parseVal_congr_ws (g + 1) (by omega) _ _ (skipWs_ws ' ' _ (by decide))]
      exact parseVal_str (g + 1) (by omega) b.status.data _
    exact parseFields_last (g + 2) (g + 1) (by omega) _ _ _ _ _ rest
      ("status".data) (J.jstr b.status.data)
      (skipWs_not_ws '"' _ (by decide))
      (scanStr_append ("status".data) _ (by decide))
      (skipWs_not_ws ':' _ (by decide))
      hv
      (by rw [skipWs_nlIndent]; exact skipWs_not_ws '}' _ (by decide))
  have h4 : ∀ g, parseFields (g + 3)
      ('"' :: ("year".data ++ '"' :: ':' :: ' ' :: (intChars b.year ++ (',' :: (nlIndent 2 ++ ('"' :: ("status".data ++ '"' :: ':' :: ' ' :: ('"' :: (escape b.status.data ++ '"' :: (nlIndent 1 ++ '}' :: rest)))))))))) =
      some ([("year".data, J.jnum b.year), ("status".data, J.jstr b.status.data)], rest) := by
    intro g
    have hv : parseVal (g + 2) (' ' :: (intChars b.year ++ (',' :: (nlIndent 2 ++ ('"' :: ("status".data ++ '"' :: ':' :: ' ' :: ('"' :: (escape b.status.data ++ '"' :: (nlIndent 1 ++ '}' :: rest))))))))) =
        some (J.jnum b.year, ',' :: (nlIndent 2 ++ ('"' :: ("status".data ++ '"' :: ':' :: ' ' :: ('"' :: (escape b.status.data ++ '"' :: (nlIndent 1 ++ '}' :: rest))))))) := by
      rw [parseVal_congr_ws (g + 2) (by omega) _ _ (skipWs_ws ' ' _ (by decide))]
      exact parseVal_num_comma (g + 2) (by omega) b.year _
    rw [parseFields_cons (g + 3) (g + 2) (by omega) _ _ _ _ _ _
      ("year".data) (J.jnum b.year)
      (skipWs_not_ws '"' _ (by decide))
      (scanStr_append ("year".data) _ (by decide))
      (skipWs_not_ws ':' _ (by decide))
      hv
      (skipWs_not_ws ',' _ (by decide))]
    rw [parseFields_congr_ws (g + 2) (by omega) _ _ (skipWs_nlIndent 2 _)]
    rw [h5 g]
    rfl
  have h3 : ∀ g, parseFields (g + 4)
      ('"' :: ("author".data ++ '"' :: ':' :: ' ' :: ('"' :: (escape b.author.data ++ '"' :: (',' :: (nlIndent 2 ++ ('"' :: ("year".data ++ '"' :: ':' :: ' ' :: (intChars b.year ++ (',' :: (nlIndent 2 ++ ('"' :: ("status".data ++ '"' :: ':' :: ' ' :: ('"' :: (escape b.status.data ++ '"' :: (nlIndent 1 ++ '}' :: rest)))))))))))))))) =
      some ([("author".data, J.jstr b.author.data), ("year".data, J.jnum b.year), ("status".data, J.jstr b.status.data)], rest) := by
    intro g
    have hv : parseVal (g + 3) (' ' :: ('"' :: (escape b.author.data ++ '"' :: (',' :: (nlIndent 2 ++ ('"' :: ("year".data ++ '"' :: ':' :: ' ' :: (intChars b.year ++ (',' :: (nlIndent 2 ++ ('"' :: ("status".data ++ '"' :: ':' :: ' ' :: ('"' :: (escape b.status.data ++ '"' :: (nlIndent 1 ++ '}' :: rest))))))))))))))) =
        some (J.jstr b.author.data, ',' :: (nlIndent 2 ++ ('"' :: ("year".data ++ '"' :: ':' :: ' ' :: (intChars b.year ++ (',' :: (nlIndent 2 ++ ('"' :: ("status".data ++ '"' :: ':' :: ' ' :: ('"' :: (escape b.status.data ++ '"' :: (nlIndent 1 ++ '}' :: rest)))))))))))) := by
      rw [parseVal_congr_ws (g + 3) (by omega) _ _ (skipWs_ws ' ' _ (by decide))]
      exact parseVal_str (g + 3) (by omega) b.author.data _
    rw [parseFields_cons (g + 4) (g + 3) (by omega) _ _ _ _ _ _
      ("author".data) (J.jstr b.author.data)
      (skipWs_not_ws '"' _ (by decide))
      (scanStr_append ("author".data) _ (by decide))
      (skipWs_not_ws ':' _ (by decide))
      hv
      (skipWs_not_ws ',' _ (by decide))]
    rw [parseFields_congr_ws (g + 3) (by omega) _ _ (skipWs_nlIndent 2 _)]
    rw [h4 g]
    rfl
  have h2 : ∀ g, parseFields (g + 5)
      ('"' :: ("title".data ++ '"' :: ':' :: ' ' :: ('"' :: (escape b.title.data ++ '"' :: (',' :: (nlIndent 2 ++ ('"' :: ("author".data ++ '"' :: ':' :: ' ' :: ('"' :: (escape b.author.data ++ '"' :: (',' :: (nlIndent 2 ++ ('"' :: ("year".data ++ '"' :: ':' :: ' ' :: (intChars b.year ++ (',' :: (nlIndent 2 ++ ('"' :: ("status".data ++ '"' :: ':' :: ' ' :: ('"' :: (escape b.status.data ++ '"' :: (nlIndent 1 ++ '}' :: rest)))))))))))))))))))))) =
      some ([("title".data, J.jstr b.title.data), ("author".data, J.jstr b.author.data), ("year".data, J.jnum b.year), ("status".data, J.jstr b.status.data)], rest) := by
    intro g
    have hv : parseVal (g + 4) (' ' :: ('"' :: (escape b.title.data ++ '"' :: (',' :: (nlIndent 2 ++ ('"' :: ("author".data ++ '"' :: ':' :: ' ' :: ('"' :: (escape b.author.data ++ '"' :: (',' :: (nlIndent 2 ++ ('"' :: ("year".data ++ '"' :: ':' :: ' ' :: (intChars b.year ++ (',' :: (nlIndent 2 ++ ('"' :: ("status".data ++ '"' :: ':' :: ' ' :: ('"' :: (escape b.status.data ++ '"' :: (nlIndent 1 ++ '}' :: rest))))))))))))))))))))) =
        some (J.jstr b.title.data, ',' :: (nlIndent 2 ++ ('"' :: ("author".data ++ '"' :: ':' :: ' ' :: ('"' :: (escape b.author.data ++ '"' :: (',' :: (nlIndent 2 ++ ('"' :: ("year".data ++ '"' :: ':' :: ' ' :: (intChars b.year ++ (',' :: (nlIndent 2 ++ ('"' :: ("status".data ++ '"' :: ':' :: ' ' :: ('"' :: (escape b.status.data ++ '"' :: (nlIndent 1 ++ '}' :: rest)))))))))))))))))) := by
      rw [parseVal_congr_ws (g + 4) (by omega) _ _ (skipWs_ws ' ' _ (by decide))]
      exact parseVal_str (g + 4) (by omega) b.title.data _
    rw [parseFields_cons (g + 5) (g + 4) (by omega) _ _ _ _ _ _
      ("title".data) (J.jstr b.title.data)
      (skipWs_not_ws '"' _ (by decide))
      (scanStr_append ("title".data) _ (by decide))
      (skipWs_not_ws ':' _ (by decide))
      hv
      (skipWs_not_ws ',' _ (by decide))]
    rw [parseFields_congr_ws (g + 4) (by omega) _ _ (skipWs_nlIndent 2 _)]
    rw [h3 g]
    rfl
  have h1 : ∀ g, parseFields (g + 6)
      ('"' :: ("id".data ++ '"' :: ':' :: ' ' :: (intChars b.id ++ (',' :: (nlIndent 2 ++ ('"' :: ("title".data ++ '"' :: ':' :: ' ' :: ('"' :: (escape b.title.data ++ '"' :: (',' :: (nlIndent 2 ++ ('"' :: ("author".data ++ '"' :: ':' :: ' ' :: ('"' :: (escape b.author.data ++ '"' :: (',' :: (nlIndent 2 ++ ('"' :: ("year".data ++ '"' :: ':' :: ' ' :: (intChars b.year ++ (',' :: (nlIndent 2 ++ ('"' :: ("status".data ++ '"' :: ':' :: ' ' :: ('"' :: (escape b.status.data ++ '"' :: (nlIndent 1 ++ '}' :: rest))))))))))))))))))))))))))) =
      some ([("id".data, J.jnum b.id), ("title".data, J.jstr b.title.data), ("author".data, J.jstr b.author.data), ("year".data, J.jnum b.year), ("status".data, J.jstr b.status.data)], rest) := by
    intro g
    have hv : parseVal (g + 5) (' ' :: (intChars b.id ++ (',' :: (nlIndent 2 ++ ('"' :: ("title".data ++ '"' :: ':' :: ' ' :: ('"' :: (escape b.title.data ++ '"' :: (',' :: (nlIndent 2 ++ ('"' :: ("author".data ++ '"' :: ':' :: ' ' :: ('"' :: (escape b.author.data ++ '"' :: (',' :: (nlIndent 2 ++ ('"' :: ("year".data ++ '"' :: ':' :: ' ' :: (intChars b.year ++ (',' :: (nlIndent 2 ++ ('"' :: ("status".data ++ '"' :: ':' :: ' ' :: ('"' :: (escape b.status.data ++ '"' :: (nlIndent 1 ++ '}' :: rest)))))))))))))))))))))))))) =
        some (J.jnum b.id, ',' :: (nlIndent 2 ++ ('"' :: ("title".data ++ '"' :: ':' :: ' ' :: ('"' :: (escape b.title.data ++ '"' :: (',' :: (nlIndent 2 ++ ('"' :: ("author".data ++ '"' :: ':' :: ' ' :: ('"' :: (escape b.author.data ++ '"' :: (',' :: (nlIndent 2 ++ ('"' :: ("year".data ++ '"' :: ':' :: ' ' :: (intChars b.year ++ (',' :: (nlIndent 2 ++ ('"' :: ("status".data ++ '"' :: ':' :: ' ' :: ('"' :: (escape b.status.data ++ '"' :: (nlIndent 1 ++ '}' :: rest)))))))))))))))))))))))) := by
      rw [parseVal_congr_ws (g + 5) (by omega) _ _ (skipWs_ws ' ' _ (by decide))]
      exact parseVal_num_comma (g + 5) (by omega) b.id _
    rw [parseFields_cons (g + 6) (g + 5) (by omega) _ _ _ _ _ _
      ("id".data) (J.jnum b.id)
      (skipWs_not_ws '"' _ (by decide))
      (scanStr_append ("id".data) _ (by decide))
      (skipWs_not_ws ':' _ (by decide))
      hv
      (skipWs_not_ws ',' _ (by decide))]
    rw [parseFields_congr_ws (g + 5) (by omega) _ _ (skipWs_nlIndent 2 _)]
    rw [h2 g]
    rfl
  rw [dumpVal_bookToJ b rest]
  rw [parseVal_obj_fields (f + 7) (f + 6) (by omega) _ _ '"'
    ((skipWs_nlIndent 2 _).trans (skipWs_not_ws '"' _ (by decide)))
    (by decide)]
  rw [h1 f]
  rfl

/-! ## Lemmas: parsing a dumped book array -/

theorem parseItems_dumpBooks (f : Nat) (b : BookRec) (bs : List BookRec)
    (rest : List Char) :
    parseItems (f + bs.length + 8)
      (dumpVal 1 (bookToJ b) ++ (dumpItems 1 (bs.map bookToJ) ++ ('\n' :: ']' :: rest))) =
      some ((b :: bs).map bookToJ, rest) := by
  induction bs generalizing f b with
  | nil =>
    simp only [List.length_nil, List.map_nil, Nat.add_zero]
    have hnil : dumpItems 1 ([] : List J) = [] := by simp [dumpItems]
    rw [hnil, List.nil_append]
    exact parseItems_last (f + 8) (f + 7) (by omega) _ _ rest (bookToJ b)
      (parseVal_dumpBook f b ('\n' :: ']' :: rest))
      ((skipWs_ws '\n' _ (by decide)).trans (skipWs_not_ws ']' _ (by decide)))
  | cons b2 bs2 ih =>
    simp only [List.length_cons, List.map_cons]
    have hitems : dumpItems 1 (bookToJ b2 :: bs2.map bookToJ) =
        ',' :: (nlIndent 1 ++ dumpVal 1 (bookToJ b2)) ++
          dumpItems 1 (bs2.map bookToJ) := by
      simp [dumpItems]
    rw [hitems]
    have hv : parseVal (f + bs2.length + 8)
        (dumpVal 1 (bookToJ b) ++
          ((',' :: (nlIndent 1 ++ dumpVal 1 (bookToJ b2)) ++
            dumpItems 1 (bs2.map bookToJ)) ++ ('\n' :: ']' :: rest))) =
        some (bookToJ b,
          (',' :: (nlIndent 1 ++ dumpVal 1 (bookToJ b2)) ++
            dumpItems 1 (bs2.map bookToJ)) ++ ('\n' :: ']' :: rest)) :=
      parseVal_dumpBook (f + bs2.length + 1) b _
    have hr : skipWs
        ((',' :: (nlIndent 1 ++ dumpVal 1 (bookToJ b2)) ++
          dumpItems 1 (bs2.map bookToJ)) ++ ('\n' :: ']' :: rest)) =
        ',' :: ((nlIndent 1 ++ dumpVal 1 (bookToJ b2)) ++
          (dumpItems 1 (bs2.map bookToJ) ++ ('\n' :: ']' :: rest))) := by
      rw [List.cons_append, List.cons_append]
      rw [skipWs_not_ws ',' _ (by decide)]
      simp [List.append_assoc]
    rw [parseItems_cons (f + (bs2.length + 1) + 8) (f + bs2.length + 8) (by omega)
      _ _ _ (bookToJ b) hv hr]
    have hcongr : parseItems (f + bs2.length + 8)
        ((nlIndent 1 ++ dumpVal 1 (bookToJ b2)) ++
          (dumpItems 1 (bs2.map bookToJ) ++ ('\n' :: ']' :: rest))) =
        parseItems (f + bs2.length + 8)
        (dumpVal 1 (bookToJ b2) ++
          (dumpItems 1 (bs2.map bookToJ) ++ ('\n' :: ']' :: rest))) := by
      apply parseItems_congr_ws _ (by omega)
      rw [List.append_assoc, skipWs_nlIndent]
    rw [hcongr, ih f b2]
    rfl

/-- Canonical character stream of a non-empty serialized store. -/
theorem dumpVal_booksToJ_cons (b : BookRec) (bs2 : List BookRec) (rest : List Char) :
    dumpVal 0 (booksToJ (b :: bs2)) ++ rest =
      '[' :: (nlIndent 1 ++ (dumpVal 1 (bookToJ b) ++
        (dumpItems 1 (bs2.map bookToJ) ++ ('\n' :: ']' :: rest)))) := by
  have hn0 : nlIndent 0 = ['\n'] := rfl
  simp [booksToJ, dumpVal, hn0, List.append_assoc]

theorem dumpItems_length (lvl : Nat) (xs : List J) :
    xs.length ≤ (dumpItems lvl xs).length := by
  induction xs with
  | nil => simp [dumpItems]
  | cons x xs ih =>
    have h : dumpItems lvl (x :: xs) =
        ',' :: (nlIndent lvl ++ dumpVal lvl x) ++ dumpItems lvl xs := by
      simp [dumpItems]
    rw [h]
    simp only [List.cons_append, List.length_cons, List.length_append]
    omega

theorem dump_books_length (b : BookRec) (bs2 : List BookRec) :
    (b :: bs2).length + 9 ≤ 2 * (save_books_file (booksToJ (b :: bs2))).length + 2 := by
  have hd := dumpVal_booksToJ_cons b bs2 []
  have hlen : (save_books_file (booksToJ (b :: bs2))).length =
      (dumpVal 0 (booksToJ (b :: bs2)) ++ ([] : List Char)).length := by
    rw [List.append_nil]
    rfl
  rw [hlen, hd]
  have hi := dumpItems_length 1 (bs2.map bookToJ)
  simp only [List.length_cons, List.length_append, List.length_map, nlIndent,
    List.length_replicate] at hi ⊢
  omega

/-- Parsing the full `json.dump` serialization of a store returns exactly the
serialized collection. -/
theorem parseVal_dumpBooks (f : Nat) (bs : List BookRec) (rest : List Char) :
    parseVal (f + bs.length + 9) (dumpVal 0 (booksToJ bs) ++ rest) =
      some (booksToJ bs, rest) := by
  cases bs with
  | nil =>
    have hd : dumpVal 0 (booksToJ ([] : List BookRec)) ++ rest = '[' :: (']' :: rest) := by
      simp [booksToJ, dumpVal]
    rw [hd]
    exact parseVal_arr_empty _ (by omega) _ _ (skipWs_not_ws ']' _ (by decide))
  | cons b bs2 =>
    rw [dumpVal_booksToJ_cons b bs2 rest]
    have hshape := dumpVal_bookToJ b
      (dumpItems 1 (bs2.map bookToJ) ++ ('\n' :: ']' :: rest))
    simp only [List.length_cons]
    rw [parseVal_arr_items (f + (bs2.length + 1) + 9) (f + (bs2.length + 1) + 8)
      (by omega) _ _ '{'
      ((skipWs_nlIndent 1 _).trans
        (by rw [hshape]; exact skipWs_not_ws '{' _ (by decide)))
      (by decide)]
    rw [← hshape]
    rw [show f + (bs2.length + 1) + 8 = f + 1 + bs2.length + 8 by omega]
    rw [parseItems_dumpBooks (f + 1) b bs2 rest]
    rfl

/-- A store file produced by `save_books` parses back (with the fuel chosen
by `pyLoads`) to exactly the collection that was saved. -/
theorem pyLoads_save (bs : List BookRec) :
    pyLoads (save_books_file (booksToJ bs)) = some (booksToJ bs) := by
  cases bs with
  | nil => rfl
  | cons b bs2 =>
    have hlen := dump_books_length b bs2
    have hparse : parseVal (2 * (save_books_file (booksToJ (b :: bs2))).length + 2)
        (save_books_file (booksToJ (b :: bs2))) = some (booksToJ (b :: bs2), []) := by
      have h2 := parseVal_dumpBooks
        (2 * (save_books_file (booksToJ (b :: bs2))).length + 2 -
          ((b :: bs2).length + 9)) (b :: bs2) []
      rw [show 2 * (save_books_file (booksToJ (b :: bs2))).length + 2 -
          ((b :: bs2).length + 9) + (b :: bs2).length + 9 =
          2 * (save_books_file (booksToJ (b :: bs2))).length + 2 by omega] at h2
      rw [List.append_nil] at h2
      exact h2
    unfold pyLoads
    rw [hparse]
    simp [skipWs]

/-! ## Claim C9 -/

/-- C9, counterexample: the file content `"[ ]"` is read successfully by
`json.load` (an empty collection), but saving the just-loaded collection
writes `"[]"` — the persisted content changes, so `save(load())` is not a
fixed point on every successfully loaded store. -/
theorem c9_counterexample :
    load_books_file (some ("[ ]".data)) = some (J.jarr []) ∧
    save_books_file (J.jarr []) ≠ "[ ]".data := by
  refine ⟨rfl, ?_⟩
  have hsave : save_books_file (J.jarr []) = "[]".data := by rfl
  rw [hsave]
  decide

/-- C9, amended: `save(load())` is a fixed point on every persisted store
that is itself the output of `save` for a collection of records — the only
stores the program ever writes, with no restriction on the record contents
(quotes, backslashes and control characters round-trip through their
escapes): loading such a file returns exactly the saved collection, and
re-saving the loaded collection reproduces the persisted content byte for
byte.  A successfully loaded store in non-canonical formatting may instead
be rewritten (whitespace normalization). -/
theorem c9_resave_fixed (bs : List BookRec) :
    load_books_file (some (save_books_file (booksToJ bs))) = some (booksToJ bs) ∧
    (load_books_file (some (save_books_file (booksToJ bs)))).map save_books_file =
      some (save_books_file (booksToJ bs)) := by
  have hl : load_books_file (some (save_books_file (booksToJ bs))) =
      some (booksToJ bs) := pyLoads_save bs
  exact ⟨hl, by rw [hl]; rfl⟩

/-- C9, witness at a concrete one-book store. -/
theorem c9_resave_fixed_witness :
    load_books_file (some (save_books_file (booksToJ
        [⟨1, "Dune", "Herbert", 1965, "В наличии"⟩]))) =
      some (booksToJ [⟨1, "Dune", "Herbert", 1965, "В наличии"⟩]) ∧
    (load_books_file (some (save_books_file (booksToJ
        [⟨1, "Dune", "Herbert", 1965, "В наличии"⟩])))).map save_books_file =
      some (save_books_file (booksToJ [⟨1, "Dune", "Herbert", 1965, "В наличии"⟩])) :=
  c9_resave_fixed [⟨1, "Dune", "Herbert", 1965, "В наличии"⟩]

/-! ## Claim C6 -/

theorem mapM_option_length {α β : Type} (f : α → Option β) :
    ∀ (l : List α) (l' : List β), l.mapM f = some l' → l'.length = l.length := by
  intro l
  induction l with
  | nil =>
    intro l' h
    simp only [List.mapM_nil, pure, Option.some.injEq] at h
    rw [← h]
    rfl
  | cons x xs ih =>
    intro l' h
    rw [List.mapM_cons] at h
    cases hfx : f x with
    | none => rw [hfx] at h; simp at h
    | some y =>
      rw [hfx] at h
      cases hxs : xs.mapM f with
      | none => rw [hxs] at h; simp at h
      | some ys =>
        rw [hxs] at h
        simp at h
        subst h
        simp [ih ys hxs]

/-- C6, confirmed: deleting an id that no record of the loaded store carries
(every stored id value compares unequal to it under Python `==`) prints "not
found" and performs no write: the persisted file — byte for byte — and its
absence/presence are exactly as before the call. -/
theorem c6_delete_absent_no_write (book_id : Int) (file : Option (List Char))
    (items : List J) (tagged : List (J × J))
    (hload : load_books_file file = some (J.jarr items))
    (htag : items.mapM (fun it =>
      match it with
      | J.jobj fs => (objLookup fs ("id".data)).map (fun v => (it, v))
      | _ => none) = some tagged)
    (hid : ∀ p ∈ tagged, jEqInt p.2 book_id = false) :
    delete_book_file book_id file = some (file, false) := by
  unfold delete_book_file
  simp only [hload, htag]
  have hkeep : tagged.filter (fun p => !(jEqInt p.2 book_id)) = tagged := by
    apply List.filter_eq_self.mpr
    intro p hp
    simp [hid p hp]
  have hlen : tagged.length = items.length := mapM_option_length _ items tagged htag
  simp [hkeep, hlen]

/-- C6, witness: deleting id 2 from a concrete one-book store with id 1. -/
theorem c6_delete_absent_no_write_witness :
    delete_book_file 2 (some (save_books_file (booksToJ
        [⟨1, "Dune", "Herbert", 1965, "В наличии"⟩]))) =
      some (some (save_books_file (booksToJ
        [⟨1, "Dune", "Herbert", 1965, "В наличии"⟩])), false) :=
  c6_delete_absent_no_write 2 _
    [bookToJ ⟨1, "Dune", "Herbert", 1965, "В наличии"⟩]
    [(bookToJ ⟨1, "Dune", "Herbert", 1965, "В наличии"⟩, J.jnum 1)]
    (pyLoads_save [⟨1, "Dune", "Herbert", 1965, "В наличии"⟩])
    rfl
    (by
      intro p hp
      rw [List.mem_singleton] at hp
      subst hp
      rfl)
